import Mathlib

/-!
Verification of the credit-card-input library: a shallow embedding of its
formatters (format.js), classifier and Luhn helpers (helpers.js), and the
`CreditCardInput` engine (dist bundle), with theorems checking the spec's
claims about them.  Strings are modelled as `List Char`; the JS regexes
`/\D/`, `/\d/` and the character-class tests are modelled through the
code-point predicates below.
-/

namespace CCSpec

/-- A decimal digit character: the JS regex class `[0-9]` (code points 48..57). -/
def isDigitChar (c : Char) : Bool := 48 ≤ c.toNat && c.toNat ≤ 57

/-- Numeric value of a digit character. -/
def digitVal (c : Char) : Nat := c.toNat - 48

/-- `value.replace(/\D/g, '')`: keep only the digit characters. -/
def extractDigits (s : List Char) : List Char := s.filter isDigitChar

/-- The number denoted by a digit string (decimal, most significant digit first);
`parseInt` on a pure digit string. -/
def natOfDigits (l : List Char) : Nat := l.foldl (fun a c => 10 * a + digitVal c) 0

/-- How many digit characters a string contains. -/
def digitCount (l : List Char) : Nat := (extractDigits l).length

/-- `JS parseInt` on an arbitrary string: parse the leading run of digits,
`none` (NaN) when there is no leading digit. -/
def jsParseIntOpt (l : List Char) : Option Nat :=
  let ds := l.takeWhile isDigitChar
  if ds = [] then none else some (natOfDigits ds)

/-- `lo <= parseInt(x) && parseInt(x) <= hi`; false on NaN, as in JS. -/
def inRange : Option Nat → Nat → Nat → Bool
  | some v, lo, hi => decide (lo ≤ v ∧ v ≤ hi)
  | none, _, _ => false

/-- Does the string start with the two given characters (JS `startsWith` of a
two-character pattern, or an anchored two-character regex)? -/
def startsWithPair (x y : Char) : List Char → Bool
  | c1 :: c2 :: _ => decide (c1 = x ∧ c2 = y)
  | _ => false

/-- helpers.js `isProbablyAmex`: length >= 2 and starts with "34" or "37". -/
def isProbablyAmex (digits : List Char) : Bool :=
  decide (2 ≤ digits.length) && (startsWithPair '3' '4' digits || startsWithPair '3' '7' digits)

/-- The JS regex `/^5[1-5]/`: first char '5' (53), second in '1'..'5' (49..53). -/
def mcDigitTest : List Char → Bool
  | c1 :: c2 :: _ => decide (c1.toNat = 53 ∧ 49 ≤ c2.toNat ∧ c2.toNat ≤ 53)
  | _ => false

/-- helpers.js `getCardType`, line for line: first match wins. -/
def getCardType (digits : List Char) : String :=
  if digits.length = 0 then ""
  else
    let firstTwo := digits.take 2
    let firstThree := digits.take 3
    let firstFour := digits.take 4
    if digits.headD ' ' = '4' then "Visa"
    else if mcDigitTest digits = true then "Mastercard"
    else if inRange (jsParseIntOpt firstFour) 2221 2720 = true then "Mastercard"
    else if firstTwo = ['3', '4'] ∨ firstTwo = ['3', '7'] then "American Express"
    else if firstFour = ['6', '0', '1', '1'] ∨ startsWithPair '6' '5' digits = true
        ∨ inRange (jsParseIntOpt firstThree) 644 649 = true then "Discover"
    else if startsWithPair '3' '5' digits = true then "JCB"
    else if firstTwo = ['3', '6'] ∨ firstTwo = ['3', '8']
        ∨ inRange (jsParseIntOpt firstThree) 300 305 = true then "Diners Club"
    else if startsWithPair '6' '2' digits = true then "UnionPay"
    else "Unknown"

/-- Modelled from the spec (claim C4's wording): the classifier as the claim
states it, with whole-number prefix ranges guarded by the available length. -/
def cardTypeSpec (d : List Char) : String :=
  if d.length = 0 then ""
  else if d.take 1 = ['4'] then "Visa"
  else if (2 ≤ d.length ∧ 51 ≤ natOfDigits (d.take 2) ∧ natOfDigits (d.take 2) ≤ 55)
      ∨ (4 ≤ d.length ∧ 2221 ≤ natOfDigits (d.take 4) ∧ natOfDigits (d.take 4) ≤ 2720) then
    "Mastercard"
  else if d.take 2 = ['3', '4'] ∨ d.take 2 = ['3', '7'] then "American Express"
  else if d.take 4 = ['6', '0', '1', '1'] ∨ d.take 2 = ['6', '5']
      ∨ (3 ≤ d.length ∧ 644 ≤ natOfDigits (d.take 3) ∧ natOfDigits (d.take 3) ≤ 649) then
    "Discover"
  else if d.take 2 = ['3', '5'] then "JCB"
  else if d.take 2 = ['3', '6'] ∨ d.take 2 = ['3', '8']
      ∨ (3 ≤ d.length ∧ 300 ≤ natOfDigits (d.take 3) ∧ natOfDigits (d.take 3) ≤ 305) then
    "Diners Club"
  else if d.take 2 = ['6', '2'] then "UnionPay"
  else "Unknown"

/-- helpers.js `luhnChecksum` before the final `% 10`: iterate positions
`len-1` down to `0`; double at positions with `i % 2 == len % 2`; subtract 9
from any doubled value above 9 (the source applies the `> 9` test to every
value, doubled or not). -/
def luhnSrcTerm (code : List Char) (i : Nat) : Nat :=
  let d := digitVal (code.getD i ' ')
  let d := if i % 2 = code.length % 2 then d * 2 else d
  if 9 < d then d - 9 else d

def luhnSum (code : List Char) : Nat :=
  (List.range code.length).reverse.foldl (fun sum i => sum + luhnSrcTerm code i) 0

/-- helpers.js `luhnChecksum`. -/
def luhnChecksum (code : List Char) : Nat := luhnSum code % 10

/-- helpers.js `luhnValidate`: strip non-digits, reject fewer than 2 digits,
else test checksum 0. -/
def luhnValidate (fullcode : List Char) : Bool :=
  let code := extractDigits fullcode
  if code.length < 2 then false else decide (luhnChecksum code = 0)

/-- The term the spec's Luhn formula assigns to position `i` (claim C5's `t(i)`):
doubling, and subtracting 9 only when the doubling overflowed. -/
def luhnSpecTerm (code : List Char) (i : Nat) : Nat :=
  let d := digitVal (code.getD i ' ')
  if i % 2 = code.length % 2 then (if 9 < 2 * d then 2 * d - 9 else 2 * d) else d

/-- The spec's Luhn sum: sum of `luhnSpecTerm` over all positions. -/
def luhnSpecSum (code : List Char) : Nat :=
  ((List.range code.length).map (luhnSpecTerm code)).sum

/-- format.js `formatCvv`, value part: digits only, at most 4. -/
def formatCvvValue (raw : List Char) : List Char := (extractDigits raw).take 4

/-- format.js `formatCvv`: new value and new cursor (cursor clamped to the
new length). -/
def formatCvv (raw : List Char) (cursorPos : Nat) : List Char × Nat :=
  let newValue := formatCvvValue raw
  (newValue, if cursorPos ≤ newValue.length then cursorPos else newValue.length)

/-- format.js `formatExpiry`, rendering of the (already truncated) digits:
empty, the digits themselves, or `MM / YY`. -/
def expiryRender (digits : List Char) : List Char :=
  if digits.length = 0 then []
  else if digits.length ≤ 2 then digits
  else digits.take 2 ++ [' ', '/', ' '] ++ (digits.drop 2).take 2

/-- format.js `formatExpiry`, value part. -/
def formatExpiryValue (raw : List Char) : List Char :=
  expiryRender ((extractDigits raw).take 4)

/-- The cursor-remap loop shared by `formatExpiry` and `formatCardNumber`:
walk the formatted string until `n` digits have been passed (or the string
ends). -/
def remapCursor : List Char → Nat → Nat
  | _, 0 => 0
  | [], _ + 1 => 0
  | c :: cs, n + 1 => remapCursor cs (if isDigitChar c then n else n + 1) + 1

/-- `oldValue.slice(0, cursorPos).replace(/\D/g, '').length`: digits strictly
before the cursor. -/
def digitsBefore (raw : List Char) (cursorPos : Nat) : Nat :=
  (extractDigits (raw.take cursorPos)).length

/-- format.js `formatExpiry`: new value and remapped cursor. -/
def formatExpiry (raw : List Char) (cursorPos : Nat) : List Char × Nat :=
  let formatted := formatExpiryValue raw
  (formatted, remapCursor formatted (digitsBefore raw cursorPos))

/-- format.js `formatCardNumber`, Amex branch: groups [4, 6, 5]; after a
non-final group a space is appended only when digits remain. -/
def amexFmt (t : List Char) : List Char :=
  let g1 := t.take 4
  let r1 := t.drop 4
  let g2 := r1.take 6
  let r2 := r1.drop 6
  let g3 := r2.take 5
  g1 ++ (if r1 = [] then [] else [' ']) ++ g2 ++ (if r2 = [] then [] else [' ']) ++ g3

/-- format.js `formatCardNumber`, non-Amex loop: a space before every index
`i > 0` with `i % 4 == 0`. -/
def group4 : Nat → List Char → List Char
  | _, [] => []
  | i, c :: cs => (if 0 < i ∧ i % 4 = 0 then [' '] else []) ++ c :: group4 (i + 1) cs

/-- Number of separators the non-Amex loop inserts over `n` digits starting
at index `i`. -/
def sepCount : Nat → Nat → Nat
  | _, 0 => 0
  | i, n + 1 => (if 0 < i ∧ i % 4 = 0 then 1 else 0) + sepCount (i + 1) n

/-- The card-number rendering, given the Amex flag and the truncated digits. -/
def cardRender (isAmex : Bool) (t : List Char) : List Char :=
  if isAmex then amexFmt t else group4 0 t

/-- format.js `formatCardNumber`, value part. -/
def formatCardNumberValue (raw : List Char) : List Char :=
  let digits := extractDigits raw
  let isAmex := isProbablyAmex digits
  let maxDigits := if isAmex then 15 else 16
  cardRender isAmex (digits.take maxDigits)

/-- The digits `formatCardNumber` keeps: extracted and truncated to 15 (Amex)
or 16 (otherwise). -/
def truncatedDigits (raw : List Char) : List Char :=
  let digits := extractDigits raw
  digits.take (if isProbablyAmex digits then 15 else 16)

/-- format.js `formatCardNumber`: new value and remapped cursor. -/
def formatCardNumber (raw : List Char) (cursorPos : Nat) : List Char × Nat :=
  let formatted := formatCardNumberValue raw
  (formatted, remapCursor formatted (digitsBefore raw cursorPos))

/-- No two adjacent separator spaces anywhere in the string. -/
def noAdj : List Char → Bool
  | c1 :: c2 :: rest => if c1 = ' ' ∧ c2 = ' ' then false else noAdj (c2 :: rest)
  | _ => true

/-- The string does not start with a separator space. -/
def headNotSep : List Char → Bool
  | [] => true
  | c :: _ => decide (c ≠ ' ')

/-- The string does not end with a separator space. -/
def lastNotSep : List Char → Bool
  | [] => true
  | [c] => decide (c ≠ ' ')
  | _ :: c :: rest => lastNotSep (c :: rest)

/-- Field status, as in the bundle's `Status` typedef. -/
inductive Status where
  | neutral
  | valid
  | invalid
deriving DecidableEq, Repr

/-- The evaluation-time current date (`new Date()` read as full year and
1-based month). -/
structure CurrentDate where
  year : Nat
  month : Nat
deriving DecidableEq, Repr

/-- The pure computation of `CreditCardInput._updateExpiryStatus`: status,
month and year from the field value and the current date. -/
def updateExpiryEval (now : CurrentDate) (value : List Char) : Status × Option Nat × Option Nat :=
  let digits := extractDigits value
  if digits.length = 4 then
    let month := natOfDigits (digits.take 2)
    let year := natOfDigits ((digits.drop 2).take 2) + 2000
    let status :=
      if month < 1 ∨ 12 < month then Status.invalid
      else
        let currentTotal := now.year * 12 + now.month
        let inputTotal := year * 12 + month
        let maxTotal := (now.year + 10) * 12 + now.month
        if inputTotal < currentTotal ∨ maxTotal < inputTotal then Status.invalid
        else Status.valid
    (status, some month, some year)
  else (Status.neutral, none, none)

/-- Modelled from the spec (claim C3's wording): neutral off 4 digits; month
out of [1,12] invalid; else valid exactly on the inclusive 120-month window. -/
def expirySpecEval (now : CurrentDate) (value : List Char) : Status × Option Nat × Option Nat :=
  let digits := extractDigits value
  if digits.length ≠ 4 then (Status.neutral, none, none)
  else
    let month := natOfDigits (digits.take 2)
    let year := natOfDigits ((digits.drop 2).take 2) + 2000
    let currentTotal := now.year * 12 + now.month
    let status :=
      if month < 1 ∨ 12 < month then Status.invalid
      else if currentTotal ≤ year * 12 + month ∧ year * 12 + month ≤ currentTotal + 120 then
        Status.valid
      else Status.invalid
    (status, some month, some year)

/-- The engine's internal state record (`CreditCardInput`'s `_`-fields). -/
structure EngineState where
  cardStatus : Status
  expiryStatus : Status
  cvvStatus : Status
  cardType : String
  isAmex : Bool
  allValid : Bool
deriving DecidableEq, Repr

/-- The three field values plus the current date, as read by one evaluation
pass. -/
structure Inputs where
  cardValue : List Char
  expiryValue : List Char
  cvvValue : List Char
  now : CurrentDate

/-- The notifications the engine emits, with their payloads. -/
inductive Ev where
  | cardStatusChange (status : Status) (value digits : List Char) (type : String)
      (isAmex isValid : Bool) (maxDigits : Nat)
  | expiryStatusChange (status : Status) (value digits : List Char)
      (month year : Option Nat)
  | cvvStatusChange (status : Status) (value digits : List Char)
      (expectedLength : Nat) (isAmex : Bool)
  | allValid (isAllValid : Bool)
  | initDone
deriving DecidableEq, Repr

/-- `allValidNow` of `_checkAllValid`: the conjunction of the three statuses
being valid. -/
def allValidNow (s : EngineState) : Bool :=
  s.cardStatus == Status.valid && s.expiryStatus == Status.valid && s.cvvStatus == Status.valid

/-- `CreditCardInput._checkAllValid`: update the flag and emit only on change. -/
def _checkAllValid (s : EngineState) : EngineState × List Ev :=
  if s.allValid = allValidNow s then (s, [])
  else ({ s with allValid := allValidNow s }, [Ev.allValid (allValidNow s)])

/-- `CreditCardInput._updateCardStatus`. -/
def _updateCardStatus (inp : Inputs) (s : EngineState) : EngineState × List Ev :=
  let value := inp.cardValue
  let digits := extractDigits value
  let isAmex := isProbablyAmex digits
  let maxDigits := if isAmex then 15 else 16
  let type := getCardType digits
  let isValid := if maxDigits ≤ digits.length then luhnValidate digits else false
  let status :=
    if maxDigits ≤ digits.length then
      if luhnValidate digits then Status.valid else Status.invalid
    else Status.neutral
  let s1 : EngineState := { s with cardType := type, isAmex := isAmex, cardStatus := status }
  let r := _checkAllValid s1
  (r.1, Ev.cardStatusChange status value digits type isAmex isValid maxDigits :: r.2)

/-- `CreditCardInput._updateExpiryStatus`. -/
def _updateExpiryStatus (inp : Inputs) (s : EngineState) : EngineState × List Ev :=
  let value := inp.expiryValue
  let digits := extractDigits value
  let e := updateExpiryEval inp.now value
  let s1 : EngineState := { s with expiryStatus := e.1 }
  let r := _checkAllValid s1
  (r.1, Ev.expiryStatusChange e.1 value digits e.2.1 e.2.2 :: r.2)

/-- `CreditCardInput._updateCvvStatus`: expected length from the Amex flag of
the most recent card evaluation. -/
def _updateCvvStatus (inp : Inputs) (s : EngineState) : EngineState × List Ev :=
  let value := inp.cvvValue
  let digits := extractDigits value
  let isAmex := s.isAmex
  let expectedLength := if isAmex then 4 else 3
  let status :=
    if 0 < digits.length then
      if digits.length = expectedLength then Status.valid else Status.invalid
    else Status.neutral
  let s1 : EngineState := { s with cvvStatus := status }
  let r := _checkAllValid s1
  (r.1, Ev.cvvStatusChange status value digits expectedLength isAmex :: r.2)

/-- The initial evaluation pass of `CreditCardInput.init`: the three updates
in order, then the init notification. -/
def initRun (inp : Inputs) (s : EngineState) : EngineState × List Ev :=
  let r1 := _updateCardStatus inp s
  let r2 := _updateExpiryStatus inp r1.1
  let r3 := _updateCvvStatus inp r2.1
  (r3.1, r1.2 ++ r2.2 ++ r3.2 ++ [Ev.initDone])

/-- The engine state the constructor builds. -/
def initialState : EngineState :=
  { cardStatus := Status.neutral, expiryStatus := Status.neutral, cvvStatus := Status.neutral
    cardType := "", isAmex := false, allValid := false }

/-- Is this an all-valid notification? -/
def isAllValidEv : Ev → Bool
  | Ev.allValid _ => true
  | _ => false

/-- Is this a card-status notification? -/
def isCardEv : Ev → Bool
  | Ev.cardStatusChange _ _ _ _ _ _ _ => true
  | _ => false

/-- Is this an expiry-status notification? -/
def isExpiryEv : Ev → Bool
  | Ev.expiryStatusChange _ _ _ _ _ => true
  | _ => false

/-- Is this a CVV-status notification? -/
def isCvvEv : Ev → Bool
  | Ev.cvvStatusChange _ _ _ _ _ => true
  | _ => false

/-- A listener as the emitter sees it: it may return normally or throw
(modelled by `Except.error`). -/
def runListener {α ε : Type} (l : α → Except ε Unit) (arg : α) : Option ε :=
  match l arg with
  | Except.ok _ => none
  | Except.error e => some e

/-- `EventEmitterLite.emit`: every listener of the snapshot is applied to the
same arguments inside its own try/catch; the per-listener outcomes (caught
error or none) are the only trace a throw leaves. -/
def emitRun {α ε : Type} (listeners : List (α → Except ε Unit)) (arg : α) : List (Option ε) :=
  listeners.map (fun l => runListener l arg)

/-- `emit` as seen from the engine: the engine state passes through untouched
and no listener error is re-raised (the result is a plain pair, not an
exception). -/
def emitFromState {α ε : Type} (s : EngineState) (listeners : List (α → Except ε Unit))
    (arg : α) : EngineState × List (Option ε) :=
  (s, emitRun listeners arg)

/-! ## Basic lemmas about digit extraction -/

theorem extract_all_digits (l : List Char) : ∀ c ∈ extractDigits l, isDigitChar c = true :=
  fun _ hc => (List.mem_filter.mp hc).2

theorem extract_of_digits {l : List Char} (h : ∀ c ∈ l, isDigitChar c = true) :
    extractDigits l = l :=
  List.filter_eq_self.mpr h

theorem extract_append (a b : List Char) :
    extractDigits (a ++ b) = extractDigits a ++ extractDigits b :=
  List.filter_append a b

theorem digit_ne_space {c : Char} (h : isDigitChar c = true) : c ≠ ' ' := by
  intro he
  subst he
  exact absurd h (by decide)

/-! ## The aggregator `_checkAllValid` -/

theorem checkAllValid_spec (s : EngineState) :
    (_checkAllValid s).1.allValid = allValidNow s ∧
    allValidNow (_checkAllValid s).1 = allValidNow s ∧
    (_checkAllValid s).2.filter isAllValidEv =
      (if s.allValid = allValidNow s then [] else [Ev.allValid (allValidNow s)]) := by
  unfold _checkAllValid
  split
  · next h => simp [h, allValidNow, isAllValidEv]
  · next h => simp [h, allValidNow, isAllValidEv]

theorem checkAllValid_flag (s1 : EngineState) :
    (_checkAllValid s1).1.allValid = allValidNow (_checkAllValid s1).1 := by
  obtain ⟨h1, h2, _⟩ := checkAllValid_spec s1
  rw [h1, h2]

theorem update_shape (s s1 : EngineState) (ev : Ev) (hs1 : s1.allValid = s.allValid)
    (hev : isAllValidEv ev = false) :
    ((_checkAllValid s1).1.allValid = allValidNow (_checkAllValid s1).1) ∧
    ((ev :: (_checkAllValid s1).2).filter isAllValidEv =
      (if s.allValid = allValidNow (_checkAllValid s1).1 then []
       else [Ev.allValid (allValidNow (_checkAllValid s1).1)])) := by
  obtain ⟨h1, h2, h3⟩ := checkAllValid_spec s1
  refine ⟨by rw [h1, h2], ?_⟩
  rw [List.filter_cons_of_neg (by simp [hev]), h3, h2, hs1]

/-- The demo inputs used for the initialization scenario: a Luhn-valid Visa
number, an expiry six and a half years ahead of 06/2024, and a 3-digit CVV. -/
def demoInputs : Inputs :=
  { cardValue := "4111111111111111".data, expiryValue := "12 / 30".data
    cvvValue := "123".data, now := { year := 2024, month := 6 } }

/-- C7: After every field status update the engine's `allValid` flag equals the
conjunction of the three statuses being valid, and an all-valid notification
(carrying the new boolean) is in the emitted events iff that conjunction
differs from the previously announced value; this also holds across the
initial pass `initRun`, and in the all-fields-valid initialization scenario
exactly one `allValid true` notification is emitted. -/
theorem allValid_flag_and_gating (inp : Inputs) (s : EngineState) :
    ((_updateCardStatus inp s).1.allValid = allValidNow (_updateCardStatus inp s).1 ∧
      (_updateCardStatus inp s).2.filter isAllValidEv =
        (if s.allValid = allValidNow (_updateCardStatus inp s).1 then []
         else [Ev.allValid (allValidNow (_updateCardStatus inp s).1)])) ∧
    ((_updateExpiryStatus inp s).1.allValid = allValidNow (_updateExpiryStatus inp s).1 ∧
      (_updateExpiryStatus inp s).2.filter isAllValidEv =
        (if s.allValid = allValidNow (_updateExpiryStatus inp s).1 then []
         else [Ev.allValid (allValidNow (_updateExpiryStatus inp s).1)])) ∧
    ((_updateCvvStatus inp s).1.allValid = allValidNow (_updateCvvStatus inp s).1 ∧
      (_updateCvvStatus inp s).2.filter isAllValidEv =
        (if s.allValid = allValidNow (_updateCvvStatus inp s).1 then []
         else [Ev.allValid (allValidNow (_updateCvvStatus inp s).1)])) ∧
    (initRun inp s).1.allValid = allValidNow (initRun inp s).1 ∧
    (initRun demoInputs initialState).2.filter isAllValidEv = [Ev.allValid true] := by
  refine ⟨?_, ?_, ?_, ?_, by decide⟩
  · apply update_shape s <;> rfl
  · apply update_shape s <;> rfl
  · apply update_shape s <;> rfl
  · apply checkAllValid_flag

/-- C9: Every call to a per-field status update emits exactly one notification
of the corresponding field kind, unconditionally (only the all-valid
notification is gated on change). -/
theorem field_event_always_emitted (inp : Inputs) (s : EngineState) :
    ((_updateCardStatus inp s).2.filter isCardEv).length = 1 ∧
    ((_updateExpiryStatus inp s).2.filter isExpiryEv).length = 1 ∧
    ((_updateCvvStatus inp s).2.filter isCvvEv).length = 1 := by
  refine ⟨?_, ?_, ?_⟩ <;>
    · simp only [_updateCardStatus, _updateExpiryStatus, _updateCvvStatus, _checkAllValid]
      repeat' split
      all_goals simp [isCardEv, isExpiryEv, isCvvEv]

/-- C3: The expiry status is exactly the function the spec describes: neutral
with null month/year off 4 digits; month and year decoded from the digits;
invalid for a month outside [1,12]; otherwise valid precisely on the inclusive
window `currentTotal <= year*12+month <= currentTotal + 120`; and, with the
current date fixed at 06/2024, the listed examples evaluate as claimed. -/
theorem expiry_status_matches_spec :
    (∀ (now : CurrentDate) (value : List Char),
      updateExpiryEval now value = expirySpecEval now value) ∧
    (updateExpiryEval ⟨2024, 6⟩ ("0624".data)).1 = Status.valid ∧
    (updateExpiryEval ⟨2024, 6⟩ ("0524".data)).1 = Status.invalid ∧
    (updateExpiryEval ⟨2024, 6⟩ ("0634".data)).1 = Status.valid ∧
    (updateExpiryEval ⟨2024, 6⟩ ("0635".data)).1 = Status.invalid ∧
    (updateExpiryEval ⟨2024, 6⟩ ("1324".data)).1 = Status.invalid ∧
    (updateExpiryEval ⟨2024, 6⟩ ("062".data)).1 = Status.neutral := by
  refine ⟨?_, by decide, by decide, by decide, by decide, by decide, by decide⟩
  intro now value
  unfold updateExpiryEval expirySpecEval
  by_cases h4 : (extractDigits value).length = 4
  · simp only [h4, ne_eq, not_true_eq_false, if_false, if_true, reduceIte]
    split_ifs <;> first | rfl | (exfalso; omega)
  · simp [h4]

/-- C6 counterexample: `luhnChecksum("4111111111111110")` is not 0 (the
source's own doc-comment example is off by one in the final digit). -/
theorem luhn_doc_example_is_wrong : ¬ luhnChecksum ("4111111111111110".data) = 0 := by
  decide

/-- C6 amended: `luhnChecksum` applied to "4111111111111110" returns 9. -/
theorem luhn_checksum_of_doc_example : luhnChecksum ("4111111111111110".data) = 9 := by
  decide

/-- C8: When a listener throws during `emit`, every other listener (before and
after it in the snapshot) still runs on the same argument, the throw is
reduced to that listener's own caught outcome rather than re-raised to the
caller, and the engine state passes through `emit` unchanged. -/
theorem emit_isolates_listener_throw {α ε : Type} (pre post : List (α → Except ε Unit))
    (l : α → Except ε Unit) (arg : α) (e : ε) (s : EngineState)
    (h : l arg = Except.error e) :
    emitFromState s (pre ++ l :: post) arg =
      (s, emitRun pre arg ++ some e :: emitRun post arg) := by
  simp [emitFromState, emitRun, runListener, h]

/-- C8 witness: a concrete emission in which the middle listener throws; both
neighbours still produce their outcomes and the state is returned intact. -/
theorem emit_isolates_listener_throw_witness :
    emitFromState initialState
        ([fun _ : Nat => Except.ok ()] ++ (fun _ : Nat => Except.error 7) :: [fun _ : Nat => Except.ok ()]) 0 =
      (initialState,
        emitRun [fun _ : Nat => Except.ok ()] 0 ++
          some 7 :: emitRun [fun _ : Nat => Except.ok ()] 0) :=
  emit_isolates_listener_throw [fun _ => Except.ok ()] [fun _ => Except.ok ()]
    (fun _ => Except.error 7) 0 7 initialState rfl

/-! ## The shared cursor-remap loop -/

theorem digitCount_cons (c : Char) (l : List Char) :
    digitCount (c :: l) = if isDigitChar c then digitCount l + 1 else digitCount l := by
  simp only [digitCount, extractDigits, List.filter_cons]
  split <;> simp

theorem remapCursor_exact : ∀ (f : List Char) (n : Nat), n ≤ digitCount f →
    digitCount (f.take (remapCursor f n)) = n := by
  intro f
  induction f with
  | nil =>
    intro n hn
    simp only [digitCount, extractDigits, List.filter_nil, List.length_nil,
      Nat.le_zero] at hn
    simp [hn, digitCount, extractDigits]
  | cons c cs ih =>
    intro n hn
    cases n with
    | zero => simp [remapCursor, digitCount, extractDigits]
    | succ m =>
      rw [digitCount_cons] at hn
      simp only [remapCursor]
      by_cases hc : isDigitChar c
      · rw [if_pos hc] at hn ⊢
        rw [List.take_succ_cons, digitCount_cons, if_pos hc, ih m (by omega)]
      · rw [if_neg hc] at hn ⊢
        rw [List.take_succ_cons, digitCount_cons, if_neg hc, ih (m + 1) hn]

theorem remapCursor_lt : ∀ (f : List Char) (n q : Nat), q < remapCursor f n →
    digitCount (f.take q) < n := by
  intro f
  induction f with
  | nil =>
    intro n q h
    cases n <;> simp [remapCursor] at h
  | cons c cs ih =>
    intro n q h
    cases n with
    | zero => simp [remapCursor] at h
    | succ m =>
      simp only [remapCursor] at h
      cases q with
      | zero => simp [digitCount, extractDigits]
      | succ q' =>
        rw [List.take_succ_cons, digitCount_cons]
        by_cases hc : isDigitChar c
        · rw [if_pos hc] at h ⊢
          have := ih m q' (by omega)
          omega
        · rw [if_neg hc] at h ⊢
          have := ih (m + 1) q' (by omega)
          omega

theorem remapCursor_end : ∀ (f : List Char) (n : Nat), digitCount f < n →
    remapCursor f n = f.length := by
  intro f
  induction f with
  | nil =>
    intro n h
    cases n with
    | zero => simp [digitCount, extractDigits] at h
    | succ m => simp [remapCursor]
  | cons c cs ih =>
    intro n h
    rw [digitCount_cons] at h
    cases n with
    | zero => omega
    | succ m =>
      simp only [remapCursor, List.length_cons]
      by_cases hc : isDigitChar c
      · rw [if_pos hc] at h ⊢
        rw [ih m (by omega)]
      · rw [if_neg hc] at h ⊢
        rw [ih (m + 1) (by omega)]

/-- C2: For `formatCardNumber` and `formatExpiry` with any raw value and any
cursor offset within it, the produced value is the formatter's value
transformation, and the new cursor is the smallest index `p` into the
formatted value whose first `p` characters contain `digitsBefore raw c`
digits — or the formatted length when the whole value has fewer digits.
The concrete case raw "12345", cursor 5 gives value "1234 5", cursor 6. -/
theorem cursor_remap_spec (raw : List Char) (c : Nat) (hc : c ≤ raw.length) :
    (formatCardNumber raw c).1 = formatCardNumberValue raw ∧
    (digitsBefore raw c ≤ digitCount (formatCardNumberValue raw) →
      digitCount ((formatCardNumberValue raw).take (formatCardNumber raw c).2) =
          digitsBefore raw c ∧
        ∀ q, q < (formatCardNumber raw c).2 →
          digitCount ((formatCardNumberValue raw).take q) < digitsBefore raw c) ∧
    (digitCount (formatCardNumberValue raw) < digitsBefore raw c →
      (formatCardNumber raw c).2 = (formatCardNumberValue raw).length) ∧
    (formatExpiry raw c).1 = formatExpiryValue raw ∧
    (digitsBefore raw c ≤ digitCount (formatExpiryValue raw) →
      digitCount ((formatExpiryValue raw).take (formatExpiry raw c).2) =
          digitsBefore raw c ∧
        ∀ q, q < (formatExpiry raw c).2 →
          digitCount ((formatExpiryValue raw).take q) < digitsBefore raw c) ∧
    (digitCount (formatExpiryValue raw) < digitsBefore raw c →
      (formatExpiry raw c).2 = (formatExpiryValue raw).length) ∧
    formatCardNumber ("12345".data) 5 = (("1234 5").data, 6) := by
  refine ⟨rfl, fun h => ⟨remapCursor_exact _ _ h, fun q hq => remapCursor_lt _ _ q hq⟩,
    fun h => remapCursor_end _ _ h, rfl,
    fun h => ⟨remapCursor_exact _ _ h, fun q hq => remapCursor_lt _ _ q hq⟩,
    fun h => remapCursor_end _ _ h, by decide⟩

/-- C2 witness: the boundary-crossing example, through the theorem itself. -/
theorem cursor_remap_spec_witness :
    5 ≤ ("12345".data).length ∧ formatCardNumber ("12345".data) 5 = (("1234 5").data, 6) :=
  ⟨by decide, (cursor_remap_spec ("12345".data) 5 (by decide)).2.2.2.2.2.2⟩

/-! ## Luhn checksum -/

theorem foldl_add_map (f : Nat → Nat) : ∀ (l : List Nat) (s : Nat),
    l.foldl (fun a i => a + f i) s = s + (l.map f).sum := by
  intro l
  induction l with
  | nil => simp
  | cons x xs ih => intro s; simp [ih, Nat.add_assoc]

theorem luhnSum_eq_sum_terms (code : List Char) :
    luhnSum code = ((List.range code.length).map (luhnSrcTerm code)).sum := by
  unfold luhnSum
  rw [foldl_add_map, List.map_reverse, List.sum_reverse, Nat.zero_add]

theorem digitVal_le_nine {c : Char} (h : isDigitChar c = true) : digitVal c ≤ 9 := by
  simp only [isDigitChar, Bool.and_eq_true, decide_eq_true_eq] at h
  simp only [digitVal]
  omega

theorem luhnSrcTerm_eq_spec (code : List Char) (h : ∀ c ∈ code, isDigitChar c = true)
    (i : Nat) (hi : i < code.length) : luhnSrcTerm code i = luhnSpecTerm code i := by
  have hd : digitVal (code.getD i ' ') ≤ 9 := by
    refine digitVal_le_nine (h _ ?_)
    rw [List.getD_eq_getElem code ' ' hi]
    exact List.getElem_mem hi
  unfold luhnSrcTerm luhnSpecTerm
  by_cases hp : i % 2 = code.length % 2
  · simp only [if_pos hp, Nat.mul_comm]
  · simp only [if_neg hp, if_neg (by omega : ¬ 9 < digitVal (code.getD i ' '))]

theorem luhnValidate_eq (raw : List Char) :
    luhnValidate raw =
      (decide (2 ≤ (extractDigits raw).length) &&
        decide (luhnChecksum (extractDigits raw) = 0)) := by
  unfold luhnValidate
  by_cases h : (extractDigits raw).length < 2
  · have h2 : ¬ 2 ≤ (extractDigits raw).length := by omega
    simp [if_pos h, h2]
  · have h2 : 2 ≤ (extractDigits raw).length := by omega
    simp [if_neg h, h2]

/-- C5: On digit strings the checksum is the spec's right-to-left formula —
each term doubled exactly at positions sharing the length's parity, with 9
subtracted only from doubled values above 9 — taken mod 10, hence in 0..9;
`luhnValidate` strips non-digits, rejects fewer than 2 digits and otherwise
tests checksum 0; and the three listed examples evaluate as claimed. -/
theorem luhn_matches_spec (code raw : List Char) (h : ∀ c ∈ code, isDigitChar c = true) :
    luhnChecksum code = luhnSpecSum code % 10 ∧
    luhnChecksum code < 10 ∧
    luhnValidate raw =
      (decide (2 ≤ (extractDigits raw).length) &&
        decide (luhnChecksum (extractDigits raw) = 0)) ∧
    luhnValidate ("4111111111111111".data) = true ∧
    luhnValidate ("4111111111111112".data) = false ∧
    luhnValidate ("0".data) = false := by
  refine ⟨?_, Nat.mod_lt _ (by omega), luhnValidate_eq raw, by decide, by decide, by decide⟩
  unfold luhnChecksum luhnSpecSum
  rw [luhnSum_eq_sum_terms,
    List.map_congr_left fun i hi => luhnSrcTerm_eq_spec code h i (List.mem_range.mp hi)]

/-- C5 witness: the theorem applied to the digit string "18" (Luhn-valid). -/
theorem luhn_matches_spec_witness :
    luhnChecksum ("18".data) = luhnSpecSum ("18".data) % 10 ∧
    luhnChecksum ("18".data) < 10 ∧
    luhnValidate ("18".data) =
      (decide (2 ≤ (extractDigits ("18".data)).length) &&
        decide (luhnChecksum (extractDigits ("18".data)) = 0)) ∧
    luhnValidate ("4111111111111111".data) = true ∧
    luhnValidate ("4111111111111112".data) = false ∧
    luhnValidate ("0".data) = false :=
  luhn_matches_spec ("18".data) ("18".data) (by decide)

/-! ## Separator placement -/

theorem noAdj_cons_of {c : Char} {l : List Char} (hc : c ≠ ' ') (hl : noAdj l = true) :
    noAdj (c :: l) = true := by
  cases l with
  | nil => rfl
  | cons c2 rest =>
    simp only [noAdj]
    rw [if_neg (fun hx => hc hx.1)]
    exact hl

theorem noAdj_space_cons {c : Char} {rest : List Char} (hc : c ≠ ' ')
    (h : noAdj (c :: rest) = true) : noAdj (' ' :: c :: rest) = true := by
  simp only [noAdj]
  rw [if_neg (fun hx => hc hx.2)]
  exact h

theorem noAdj_of_all {l : List Char} (h : ∀ c ∈ l, c ≠ ' ') : noAdj l = true := by
  induction l with
  | nil => rfl
  | cons c cs ih =>
    exact noAdj_cons_of (h c (by simp)) (ih fun x hx => h x (by simp [hx]))

theorem noAdj_append_left {l : List Char} (hl : noAdj l = true) :
    ∀ {a : List Char}, (∀ c ∈ a, c ≠ ' ') → noAdj (a ++ l) = true := by
  intro a
  induction a with
  | nil => intro _; simpa using hl
  | cons c cs ih =>
    intro ha
    simp only [List.cons_append]
    exact noAdj_cons_of (ha c (by simp)) (ih fun x hx => ha x (by simp [hx]))

theorem headNotSep_of_all {l : List Char} (h : ∀ c ∈ l, c ≠ ' ') :
    headNotSep l = true := by
  cases l with
  | nil => rfl
  | cons c cs => simp [headNotSep, h c (by simp)]

theorem headNotSep_append {a l : List Char} (ha : a ≠ []) :
    headNotSep (a ++ l) = headNotSep a := by
  cases a with
  | nil => exact absurd rfl ha
  | cons c cs => rfl

theorem lastNotSep_cons_cons (x y : Char) (r : List Char) :
    lastNotSep (x :: y :: r) = lastNotSep (y :: r) := rfl

theorem lastNotSep_of_all {l : List Char} (h : ∀ c ∈ l, c ≠ ' ') :
    lastNotSep l = true := by
  induction l with
  | nil => rfl
  | cons c cs ih =>
    cases cs with
    | nil => simp [lastNotSep, h c (by simp)]
    | cons y r =>
      rw [lastNotSep_cons_cons]
      exact ih fun x hx => h x (by simp [hx])

theorem lastNotSep_append {l : List Char} (hl : l ≠ []) :
    ∀ a, lastNotSep (a ++ l) = lastNotSep l := by
  intro a
  induction a with
  | nil => rfl
  | cons c cs ih =>
    simp only [List.cons_append]
    cases hcs : cs ++ l with
    | nil => exact absurd (List.append_eq_nil.mp hcs).2 hl
    | cons y r => rw [lastNotSep_cons_cons, ← hcs]; exact ih

/-! ## The non-Amex grouping loop -/

theorem group4_ne_nil {t : List Char} (h : t ≠ []) (i : Nat) : group4 i t ≠ [] := by
  cases t with
  | nil => exact absurd rfl h
  | cons c cs =>
    simp only [group4]
    split <;> simp

theorem extract_group4 {t : List Char} (h : ∀ c ∈ t, isDigitChar c = true) :
    ∀ i, extractDigits (group4 i t) = t := by
  induction t with
  | nil => intro _; rfl
  | cons c cs ih =>
    intro i
    simp only [group4]
    rw [extract_append, show extractDigits (if 0 < i ∧ i % 4 = 0 then [' '] else []) = []
        by split <;> rfl]
    rw [show extractDigits (c :: group4 (i + 1) cs) = c :: extractDigits (group4 (i + 1) cs)
        by simp [extractDigits, List.filter_cons, h c (by simp)]]
    rw [ih (fun x hx => h x (by simp [hx])) (i + 1)]
    rfl

theorem noAdj_group4 {t : List Char} (h : ∀ c ∈ t, c ≠ ' ') :
    ∀ i, noAdj (group4 i t) = true := by
  induction t with
  | nil => intro _; rfl
  | cons c cs ih =>
    intro i
    have hrec : noAdj (c :: group4 (i + 1) cs) = true :=
      noAdj_cons_of (h c (by simp)) (ih (fun x hx => h x (by simp [hx])) (i + 1))
    simp only [group4]
    split
    · simpa using noAdj_space_cons (h c (by simp)) hrec
    · simpa using hrec

theorem lastNotSep_group4 {t : List Char} (h : ∀ c ∈ t, c ≠ ' ') :
    ∀ i, lastNotSep (group4 i t) = true := by
  induction t with
  | nil => intro _; rfl
  | cons c cs ih =>
    intro i
    simp only [group4]
    by_cases hcs : cs = []
    · subst hcs
      split <;> simp [lastNotSep, h c (by simp)]
    · have hne : group4 (i + 1) cs ≠ [] := group4_ne_nil hcs (i + 1)
      have hcg : lastNotSep (c :: group4 (i + 1) cs) = true := by
        cases hg : group4 (i + 1) cs with
        | nil => exact absurd hg hne
        | cons y r =>
          rw [lastNotSep_cons_cons, ← hg]
          exact ih (fun x hx => h x (by simp [hx])) (i + 1)
      split
      · simpa [lastNotSep_cons_cons] using hcg
      · simpa using hcg

theorem headNotSep_group4 {t : List Char} (h : ∀ c ∈ t, c ≠ ' ') :
    headNotSep (group4 0 t) = true := by
  cases t with
  | nil => rfl
  | cons c cs =>
    simp only [group4]
    rw [if_neg (by simp)]
    simpa [headNotSep] using h c (by simp)

theorem group4_length : ∀ (t : List Char) (i : Nat),
    (group4 i t).length = t.length + sepCount i t.length := by
  intro t
  induction t with
  | nil => intro _; rfl
  | cons c cs ih =>
    intro i
    simp only [group4, sepCount, List.length_append, List.length_cons, ih]
    split <;> simp <;> omega

/-! ## The Amex grouping -/

theorem extract_amexFmt {t : List Char} (h : ∀ c ∈ t, isDigitChar c = true)
    (hlen : t.length ≤ 15) : extractDigits (amexFmt t) = t := by
  simp only [amexFmt]
  rw [extract_append, extract_append, extract_append, extract_append]
  rw [extract_of_digits (fun c hc => h c (List.take_subset _ _ hc)),
    extract_of_digits (fun c hc => h c (List.drop_subset _ _ (List.take_subset _ _ hc))),
    extract_of_digits (fun c hc =>
      h c (List.drop_subset _ _ (List.drop_subset _ _ (List.take_subset _ _ hc)))),
    show extractDigits (if t.drop 4 = [] then [] else [' ']) = [] by split <;> rfl,
    show extractDigits (if (t.drop 4).drop 6 = [] then [] else [' ']) = [] by split <;> rfl]
  rw [List.append_nil, List.append_nil]
  rw [List.take_of_length_le (l := ((t.drop 4).drop 6))
      (by simp only [List.length_drop]; omega)]
  rw [List.append_assoc, List.take_append_drop, List.take_append_drop]

theorem seps_amexFmt {t : List Char} (h : ∀ c ∈ t, c ≠ ' ') :
    headNotSep (amexFmt t) = true ∧ lastNotSep (amexFmt t) = true ∧
      noAdj (amexFmt t) = true := by
  have h1 : ∀ c ∈ t.take 4, c ≠ ' ' := fun c hc => h c (List.take_subset _ _ hc)
  have h2 : ∀ c ∈ (t.drop 4).take 6, c ≠ ' ' := fun c hc =>
    h c (List.drop_subset _ _ (List.take_subset _ _ hc))
  have h3 : ∀ c ∈ ((t.drop 4).drop 6).take 5, c ≠ ' ' := fun c hc =>
    h c (List.drop_subset _ _ (List.drop_subset _ _ (List.take_subset _ _ hc)))
  simp only [amexFmt]
  by_cases h4 : t.drop 4 = []
  · simp only [h4, List.take_nil, List.drop_nil, eq_self_iff_true, if_true, List.append_nil]
    exact ⟨headNotSep_of_all h1, lastNotSep_of_all h1, noAdj_of_all h1⟩
  · have ht4 : t.take 4 ≠ [] := by
      intro hx
      apply h4
      have hlt := congrArg List.length hx
      simp only [List.length_take, List.length_nil] at hlt
      have : t.length = 0 := by omega
      rw [List.eq_nil_of_length_eq_zero this]
      rfl
    obtain ⟨c1, r1, hr1⟩ : ∃ c1 r1, t.drop 4 = c1 :: r1 := by
      cases hx : t.drop 4 with
      | nil => exact absurd hx h4
      | cons a b => exact ⟨a, b, rfl⟩
    have hg2 : (t.drop 4).take 6 = c1 :: r1.take 5 := by rw [hr1]; rfl
    have hc1 : c1 ≠ ' ' := h2 c1 (by rw [hg2]; simp)
    by_cases h6 : (t.drop 4).drop 6 = []
    · simp only [if_neg h4, h6, eq_self_iff_true, if_true, List.take_nil, List.append_nil,
        List.append_assoc, List.singleton_append, List.cons_append, List.nil_append]
      refine ⟨?_, ?_, ?_⟩
      · rw [headNotSep_append ht4]
        exact headNotSep_of_all h1
      · rw [lastNotSep_append (by simp) (t.take 4), hg2, lastNotSep_cons_cons, ← hg2]
        exact lastNotSep_of_all h2
      · refine noAdj_append_left ?_ h1
        rw [hg2]
        exact noAdj_space_cons hc1 (by rw [← hg2]; exact noAdj_of_all h2)
    · obtain ⟨c2, r2, hr2⟩ : ∃ c2 r2, (t.drop 4).drop 6 = c2 :: r2 := by
        cases hx : (t.drop 4).drop 6 with
        | nil => exact absurd hx h6
        | cons a b => exact ⟨a, b, rfl⟩
      have hg3 : ((t.drop 4).drop 6).take 5 = c2 :: r2.take 4 := by rw [hr2]; rfl
      have hc2 : c2 ≠ ' ' := h3 c2 (by rw [hg3]; simp)
      have hform : (t.drop 4).take 6 ++ ' ' :: ((t.drop 4).drop 6).take 5 =
          c1 :: (r1.take 5 ++ ' ' :: ((t.drop 4).drop 6).take 5) := by
        rw [hg2]; rfl
      have hin3 : noAdj (' ' :: ((t.drop 4).drop 6).take 5) = true := by
        rw [hg3]
        exact noAdj_space_cons hc2 (by rw [← hg3]; exact noAdj_of_all h3)
      have hinA : noAdj ((t.drop 4).take 6 ++ ' ' :: ((t.drop 4).drop 6).take 5) = true :=
        noAdj_append_left hin3 h2
      simp only [if_neg h4, if_neg h6, List.append_assoc, List.singleton_append,
        List.cons_append, List.nil_append]
      refine ⟨?_, ?_, ?_⟩
      · rw [headNotSep_append ht4]
        exact headNotSep_of_all h1
      · rw [lastNotSep_append (by simp) (t.take 4), hform, lastNotSep_cons_cons, ← hform,
          lastNotSep_append (by simp) ((t.drop 4).take 6), hg3, lastNotSep_cons_cons, ← hg3]
        exact lastNotSep_of_all h3
      · refine noAdj_append_left ?_ h1
        rw [hform]
        exact noAdj_space_cons hc1 (by rw [← hform]; exact hinA)

theorem amexFmt_len15 {t : List Char} (h15 : t.length = 15) : (amexFmt t).length = 17 := by
  have h4 : ¬ t.drop 4 = [] := by
    intro hx
    have := congrArg List.length hx
    simp only [List.length_drop, List.length_nil, h15] at this
    omega
  have h6 : ¬ (t.drop 4).drop 6 = [] := by
    intro hx
    have := congrArg List.length hx
    simp only [List.length_drop, List.length_nil, h15] at this
    omega
  simp only [amexFmt, if_neg h4, if_neg h6]
  simp only [List.length_append, List.length_take, List.length_drop, h15,
    List.length_singleton]
  omega

theorem truncatedDigits_def (raw : List Char) :
    truncatedDigits raw =
      (extractDigits raw).take (if isProbablyAmex (extractDigits raw) then 15 else 16) := rfl

theorem formatCardNumberValue_def (raw : List Char) :
    formatCardNumberValue raw =
      cardRender (isProbablyAmex (extractDigits raw)) (truncatedDigits raw) := rfl

theorem extract_formatCardNumberValue (raw : List Char) :
    extractDigits (formatCardNumberValue raw) = truncatedDigits raw := by
  have hd := extract_all_digits raw
  rw [formatCardNumberValue_def, truncatedDigits_def, cardRender]
  by_cases ha : isProbablyAmex (extractDigits raw) = true
  · simp only [ha, if_true]
    exact extract_amexFmt
      (fun c hc => hd c (List.take_subset _ _ hc))
      (by rw [List.length_take]; omega)
  · simp only [Bool.not_eq_true] at ha
    simp only [ha, Bool.false_eq_true, if_false]
    exact extract_group4 (fun c hc => hd c (List.take_subset _ _ hc)) 0

theorem digits_of_truncated (raw : List Char) :
    ∀ c ∈ truncatedDigits raw, isDigitChar c = true := by
  intro c hc
  rw [truncatedDigits_def] at hc
  exact extract_all_digits raw c (List.take_subset _ _ hc)

theorem nonspace_of_truncated (raw : List Char) :
    ∀ c ∈ truncatedDigits raw, c ≠ ' ' :=
  fun c hc => digit_ne_space (digits_of_truncated raw c hc)

/-- C1: `formatCardNumber`'s value is the grouped rendering of the extracted
digits truncated to 15 (Amex) or 16 (otherwise): stripping non-digits from the
output recovers exactly the truncated digits, a separator space never sits at
the start, at the end, or next to another separator, and the full-length
outputs measure 17 characters (15 Amex digits) and 19 characters (16 non-Amex
digits). -/
theorem formatCardNumber_value_spec (raw : List Char) :
    extractDigits (formatCardNumberValue raw) = truncatedDigits raw ∧
    headNotSep (formatCardNumberValue raw) = true ∧
    lastNotSep (formatCardNumberValue raw) = true ∧
    noAdj (formatCardNumberValue raw) = true ∧
    (isProbablyAmex (extractDigits raw) = true → (truncatedDigits raw).length = 15 →
      (formatCardNumberValue raw).length = 17) ∧
    ((truncatedDigits raw).length = 16 → (formatCardNumberValue raw).length = 19) := by
  have hns := nonspace_of_truncated raw
  refine ⟨extract_formatCardNumberValue raw, ?_, ?_, ?_, ?_, ?_⟩ <;>
    rw [formatCardNumberValue_def, cardRender] <;>
    by_cases ha : isProbablyAmex (extractDigits raw) = true
  · simp only [ha, if_true]
    exact (seps_amexFmt hns).1
  · simp only [Bool.not_eq_true] at ha
    simp only [ha, Bool.false_eq_true, if_false]
    exact headNotSep_group4 hns
  · simp only [ha, if_true]
    exact (seps_amexFmt hns).2.1
  · simp only [Bool.not_eq_true] at ha
    simp only [ha, Bool.false_eq_true, if_false]
    exact lastNotSep_group4 hns 0
  · simp only [ha, if_true]
    exact (seps_amexFmt hns).2.2
  · simp only [Bool.not_eq_true] at ha
    simp only [ha, Bool.false_eq_true, if_false]
    exact noAdj_group4 hns 0
  · simp only [ha, if_true]
    intro _ h15
    exact amexFmt_len15 h15
  · intro hx
    exact absurd hx ha
  · intro h16
    rw [truncatedDigits_def, if_pos ha, List.length_take] at h16
    exact absurd h16 (by omega)
  · simp only [Bool.not_eq_true] at ha
    simp only [ha, Bool.false_eq_true, if_false]
    intro h16
    rw [group4_length, h16]
    rfl

/-- C1 witness: concrete 15-digit Amex and 16-digit non-Amex inputs hitting
the two conditional length consequences through the theorem itself. -/
theorem formatCardNumber_value_spec_witness :
    isProbablyAmex (extractDigits ("341111111111111".data)) = true ∧
    (truncatedDigits ("341111111111111".data)).length = 15 ∧
    (formatCardNumberValue ("341111111111111".data)).length = 17 ∧
    (truncatedDigits ("4111111111111111".data)).length = 16 ∧
    (formatCardNumberValue ("4111111111111111".data)).length = 19 :=
  ⟨by decide, by decide,
    (formatCardNumber_value_spec ("341111111111111".data)).2.2.2.2.1 (by decide) (by decide),
    by decide,
    (formatCardNumber_value_spec ("4111111111111111".data)).2.2.2.2.2 (by decide)⟩

/-! ## Idempotence of the formatters -/

theorem extract_expiryRender {d : List Char} (h : ∀ c ∈ d, isDigitChar c = true)
    (hlen : d.length ≤ 4) : extractDigits (expiryRender d) = d := by
  unfold expiryRender
  split
  · next h0 => rw [List.length_eq_zero.mp h0]; rfl
  · split
    · next => exact extract_of_digits h
    · next =>
      rw [extract_append, extract_append]
      rw [extract_of_digits (fun c hc => h c (List.take_subset _ _ hc)),
        extract_of_digits (fun c hc => h c (List.drop_subset _ _ (List.take_subset _ _ hc))),
        show extractDigits [' ', '/', ' '] = [] from rfl]
      rw [List.append_nil]
      rw [List.take_of_length_le (l := d.drop 2) (by rw [List.length_drop]; omega)]
      exact List.take_append_drop 2 d

theorem startsWithPair_take {x y : Char} {l : List Char} {n : Nat} (hn : 2 ≤ n) :
    startsWithPair x y (l.take n) = startsWithPair x y l := by
  obtain ⟨m, rfl⟩ : ∃ m, n = m + 2 := ⟨n - 2, by omega⟩
  cases l with
  | nil => simp [List.take_nil]
  | cons a l1 =>
    cases l1 with
    | nil => simp [startsWithPair, List.take_succ_cons, List.take_nil]
    | cons b l2 => simp [startsWithPair, List.take_succ_cons]

theorem isProbablyAmex_take {l : List Char} {n : Nat} (hn : 2 ≤ n) :
    isProbablyAmex (l.take n) = isProbablyAmex l := by
  unfold isProbablyAmex
  rw [startsWithPair_take hn, startsWithPair_take hn]
  congr 1
  rw [List.length_take]
  exact decide_eq_decide.mpr (by omega)

/-- C10: Each formatter's value transformation is idempotent — re-formatting
its own output reproduces that output exactly, for the CVV, expiry and
card-number formatters alike. -/
theorem formatters_idempotent (raw : List Char) :
    formatCvvValue (formatCvvValue raw) = formatCvvValue raw ∧
    formatExpiryValue (formatExpiryValue raw) = formatExpiryValue raw ∧
    formatCardNumberValue (formatCardNumberValue raw) = formatCardNumberValue raw := by
  refine ⟨?_, ?_, ?_⟩
  · show formatCvvValue ((extractDigits raw).take 4) = (extractDigits raw).take 4
    unfold formatCvvValue
    rw [extract_of_digits
        (fun c hc => extract_all_digits raw c (List.take_subset _ _ hc)),
      List.take_take, Nat.min_self]
  · show formatExpiryValue (expiryRender ((extractDigits raw).take 4)) = _
    unfold formatExpiryValue
    rw [extract_expiryRender
        (fun c hc => extract_all_digits raw c (List.take_subset _ _ hc))
        (by rw [List.length_take]; omega),
      List.take_take, Nat.min_self]
  · have hta : isProbablyAmex (truncatedDigits raw) = isProbablyAmex (extractDigits raw) := by
      rw [truncatedDigits_def]
      by_cases ha : isProbablyAmex (extractDigits raw) = true
      · rw [if_pos ha]
        exact isProbablyAmex_take (by omega)
      · rw [if_neg ha]
        exact isProbablyAmex_take (by omega)
    have htt : (truncatedDigits raw).take
        (if isProbablyAmex (extractDigits raw) then 15 else 16) = truncatedDigits raw := by
      rw [truncatedDigits_def raw, List.take_take, Nat.min_self, ← truncatedDigits_def]
    rw [formatCardNumberValue_def (formatCardNumberValue raw), extract_formatCardNumberValue,
      truncatedDigits_def (formatCardNumberValue raw), extract_formatCardNumberValue,
      hta, htt, formatCardNumberValue_def raw]

/-! ## The brand classifier -/

theorem digit_bounds {c : Char} (h : isDigitChar c = true) : 48 ≤ c.toNat ∧ c.toNat ≤ 57 := by
  simpa [isDigitChar] using h

theorem ite_or_eq {α : Type} (P Q : Prop) [Decidable P] [Decidable Q] (x r : α) :
    (if P ∨ Q then x else r) = if P then x else if Q then x else r := by
  by_cases hP : P <;> by_cases hQ : Q <;> simp [hP, hQ]

theorem getCardType_case1 {a : Char} (h : ∀ c ∈ [a], isDigitChar c = true) :
    getCardType [a] = cardTypeSpec [a] := by
  obtain ⟨ha1, ha2⟩ := digit_bounds (h a (by simp))
  have hpi : jsParseIntOpt [a] = some (natOfDigits [a]) := by
    simp [jsParseIntOpt, List.takeWhile_cons, h a (by simp)]
  have hf1 : inRange (some (natOfDigits [a])) 2221 2720 = false :=
    decide_eq_false (by simp only [natOfDigits, List.foldl, digitVal]; omega)
  have hf2 : inRange (some (natOfDigits [a])) 644 649 = false :=
    decide_eq_false (by simp only [natOfDigits, List.foldl, digitVal]; omega)
  have hf3 : inRange (some (natOfDigits [a])) 300 305 = false :=
    decide_eq_false (by simp only [natOfDigits, List.foldl, digitVal]; omega)
  simp [getCardType, cardTypeSpec, mcDigitTest, startsWithPair, hpi, hf1, hf2, hf3]

theorem getCardType_case2 {a b : Char} (h : ∀ c ∈ [a, b], isDigitChar c = true) :
    getCardType [a, b] = cardTypeSpec [a, b] := by
  obtain ⟨ha1, ha2⟩ := digit_bounds (h a (by simp))
  obtain ⟨hb1, hb2⟩ := digit_bounds (h b (by simp))
  have hpi : jsParseIntOpt [a, b] = some (natOfDigits [a, b]) := by
    simp [jsParseIntOpt, List.takeWhile_cons, h a (by simp), h b (by simp)]
  have hf1 : inRange (some (natOfDigits [a, b])) 2221 2720 = false :=
    decide_eq_false (by simp only [natOfDigits, List.foldl, digitVal]; omega)
  have hf2 : inRange (some (natOfDigits [a, b])) 644 649 = false :=
    decide_eq_false (by simp only [natOfDigits, List.foldl, digitVal]; omega)
  have hf3 : inRange (some (natOfDigits [a, b])) 300 305 = false :=
    decide_eq_false (by simp only [natOfDigits, List.foldl, digitVal]; omega)
  have hmc : mcDigitTest [a, b] = true ↔
      (51 ≤ natOfDigits [a, b] ∧ natOfDigits [a, b] ≤ 55) := by
    simp only [mcDigitTest, decide_eq_true_eq, natOfDigits, List.foldl, digitVal]
    omega
  simp [getCardType, cardTypeSpec, startsWithPair, hpi, hf1, hf2, hf3, hmc]

theorem getCardType_case3 {a b c : Char} (h : ∀ x ∈ [a, b, c], isDigitChar x = true) :
    getCardType [a, b, c] = cardTypeSpec [a, b, c] := by
  obtain ⟨ha1, ha2⟩ := digit_bounds (h a (by simp))
  obtain ⟨hb1, hb2⟩ := digit_bounds (h b (by simp))
  obtain ⟨hc1, hc2⟩ := digit_bounds (h c (by simp))
  have hpi : jsParseIntOpt [a, b, c] = some (natOfDigits [a, b, c]) := by
    simp [jsParseIntOpt, List.takeWhile_cons, h a (by simp), h b (by simp), h c (by simp)]
  have hf1 : inRange (some (natOfDigits [a, b, c])) 2221 2720 = false :=
    decide_eq_false (by simp only [natOfDigits, List.foldl, digitVal]; omega)
  have hmc : mcDigitTest [a, b, c] = true ↔
      (51 ≤ natOfDigits [a, b] ∧ natOfDigits [a, b] ≤ 55) := by
    simp only [mcDigitTest, decide_eq_true_eq, natOfDigits, List.foldl, digitVal]
    omega
  have h644 : inRange (some (natOfDigits [a, b, c])) 644 649 = true ↔
      (644 ≤ natOfDigits [a, b, c] ∧ natOfDigits [a, b, c] ≤ 649) := by
    simp [inRange]
  have h300 : inRange (some (natOfDigits [a, b, c])) 300 305 = true ↔
      (300 ≤ natOfDigits [a, b, c] ∧ natOfDigits [a, b, c] ≤ 305) := by
    simp [inRange]
  simp [getCardType, cardTypeSpec, startsWithPair, hpi, hf1, hmc, h644, h300]

theorem getCardType_case4 {a b c e : Char} {rest : List Char}
    (h : ∀ x ∈ a :: b :: c :: e :: rest, isDigitChar x = true) :
    getCardType (a :: b :: c :: e :: rest) = cardTypeSpec (a :: b :: c :: e :: rest) := by
  obtain ⟨ha1, ha2⟩ := digit_bounds (h a (by simp))
  obtain ⟨hb1, hb2⟩ := digit_bounds (h b (by simp))
  obtain ⟨hc1, hc2⟩ := digit_bounds (h c (by simp))
  obtain ⟨he1, he2⟩ := digit_bounds (h e (by simp))
  have htake2 : (a :: b :: c :: e :: rest).take 2 = [a, b] := rfl
  have htake3 : (a :: b :: c :: e :: rest).take 3 = [a, b, c] := rfl
  have htake4 : (a :: b :: c :: e :: rest).take 4 = [a, b, c, e] := rfl
  have hpi3 : jsParseIntOpt [a, b, c] = some (natOfDigits [a, b, c]) := by
    simp [jsParseIntOpt, List.takeWhile_cons, h a (by simp), h b (by simp), h c (by simp)]
  have hpi4 : jsParseIntOpt [a, b, c, e] = some (natOfDigits [a, b, c, e]) := by
    simp [jsParseIntOpt, List.takeWhile_cons, h a (by simp), h b (by simp), h c (by simp),
      h e (by simp)]
  have hmc : mcDigitTest (a :: b :: c :: e :: rest) = true ↔
      (51 ≤ natOfDigits [a, b] ∧ natOfDigits [a, b] ≤ 55) := by
    simp only [mcDigitTest, decide_eq_true_eq, natOfDigits, List.foldl, digitVal]
    omega
  have h2221 : inRange (some (natOfDigits [a, b, c, e])) 2221 2720 = true ↔
      (2221 ≤ natOfDigits [a, b, c, e] ∧ natOfDigits [a, b, c, e] ≤ 2720) := by
    simp [inRange]
  have h644 : inRange (some (natOfDigits [a, b, c])) 644 649 = true ↔
      (644 ≤ natOfDigits [a, b, c] ∧ natOfDigits [a, b, c] ≤ 649) := by
    simp [inRange]
  have h300 : inRange (some (natOfDigits [a, b, c])) 300 305 = true ↔
      (300 ≤ natOfDigits [a, b, c] ∧ natOfDigits [a, b, c] ≤ 305) := by
    simp [inRange]
  simp [getCardType, cardTypeSpec, startsWithPair, htake2, htake3, htake4, hpi3, hpi4,
    hmc, h2221, h644, h300, ite_or_eq, Nat.le_add_left]

/-- C4: On digit strings, `getCardType` is exactly the spec's classifier:
empty label on empty input, then the first matching prefix rule in the listed
order, with any rule needing more leading digits than the input has treated
as not matching; and the four listed examples classify as claimed. -/
theorem getCardType_matches_spec (d : List Char) (h : ∀ c ∈ d, isDigitChar c = true) :
    getCardType d = cardTypeSpec d ∧
    getCardType ("4111".data) = "Visa" ∧
    getCardType ("5500".data) = "Mastercard" ∧
    getCardType ("340000000000009".data) = "American Express" ∧
    getCardType ("6011000000000004".data) = "Discover" ∧
    getCardType [] = "" := by
  refine ⟨?_, by decide, by decide, by decide, by decide, rfl⟩
  match d, h with
  | [], _ => rfl
  | [a], h => exact getCardType_case1 h
  | [a, b], h => exact getCardType_case2 h
  | [a, b, c], h => exact getCardType_case3 h
  | a :: b :: c :: e :: rest, h => exact getCardType_case4 h

/-- C4 witness: the theorem applied to the concrete digit string "5500". -/
theorem getCardType_matches_spec_witness :
    getCardType ("5500".data) = cardTypeSpec ("5500".data) ∧
    getCardType ("4111".data) = "Visa" ∧
    getCardType ("5500".data) = "Mastercard" ∧
    getCardType ("340000000000009".data) = "American Express" ∧
    getCardType ("6011000000000004".data) = "Discover" ∧
    getCardType [] = "" :=
  getCardType_matches_spec ("5500".data) (by decide)

end CCSpec
